import Mathlib

/-!
Verification of the pixelmatch image-comparison core (src/pixelmatch/core.py
and src/pixelmatch/utils.py) against its natural-language specification.

Embedding conventions:
* An image buffer is a `List ℤ` of channel samples (Python `Sequence[int]`).
* Python float arithmetic is embedded as exact rational arithmetic over `ℚ`.
* Python `int()` truncation toward zero is `pyInt`.
* The optional output buffer is `Option (List ℤ)`; Python truthiness of the
  argument (`if output:`) is `truthy`, which is false for `None` and for an
  empty sequence alike.
* Buffer reads `img[i]` are embedded as `getD` with default 0; all in-bounds
  claims about the reads are handled separately (see `windowIndices`).
* Coordinates are `Nat`.  Python computes `x0 = max(x1 - 1, 0)` on `int`;
  for `x1 : Nat` this equals truncated subtraction `x1 - 1`, which is how the
  clamped windows below are written.
-/

namespace Pixelmatch

/-- Raw integer channel read `img[i]` (out-of-range reads default to 0;
    bounds are established separately where they matter). -/
def pxz (img : List ℤ) (i : Nat) : ℤ := img.getD i 0

/-- Channel read coerced into the rational numbers used for color math. -/
def px (img : List ℤ) (i : Nat) : ℚ := (pxz img i : ℚ)

/-- utils.rgb2y -/
def rgb2y (r g b : ℚ) : ℚ := r * 0.29889531 + g * 0.58662247 + b * 0.11448223

/-- utils.rgb2i -/
def rgb2i (r g b : ℚ) : ℚ := r * 0.59597799 - g * 0.27417610 - b * 0.32180189

/-- utils.rgb2q -/
def rgb2q (r g b : ℚ) : ℚ := r * 0.21147017 - g * 0.52261711 + b * 0.31114694

/-- utils.blend: blend semi-transparent color with white. -/
def blend (c a : ℚ) : ℚ := 255 + (c - 255) * a

/-- The r, g, b of the sample at offset `k` after the alpha-over-white
    blending step at the top of utils.color_delta (`if a1 < 255: ...`).
    The Python code routes the channels through `blendRGB` with the g/b
    arguments swapped on both sides, which cancels out: each channel is
    blended with the sample's own normalized alpha. -/
def blendedRGB (img : List ℤ) (k : Nat) : ℚ × ℚ × ℚ :=
  let r := px img k
  let g := px img (k + 1)
  let b := px img (k + 2)
  let a := px img (k + 3)
  if a < 255 then (blend r (a / 255), blend g (a / 255), blend b (a / 255))
  else (r, g, b)

/-- utils.color_delta: perceptual YIQ color distance between the sample of
    `img1` at offset `k` and the sample of `img2` at offset `m`. -/
def color_delta (img1 img2 : List ℤ) (k m : Nat) (y_only : Bool) : ℚ :=
  if pxz img1 (k + 3) = pxz img2 (m + 3) ∧ pxz img1 k = pxz img2 m ∧
      pxz img1 (k + 1) = pxz img2 (m + 1) ∧ pxz img1 (k + 2) = pxz img2 (m + 2) then 0
  else
    let p1 := blendedRGB img1 k
    let p2 := blendedRGB img2 m
    let y := rgb2y p1.1 p1.2.1 p1.2.2 - rgb2y p2.1 p2.2.1 p2.2.2
    if y_only then y
    else
      let i := rgb2i p1.1 p1.2.1 p1.2.2 - rgb2i p2.1 p2.2.1 p2.2.2
      let q := rgb2q p1.1 p1.2.1 p1.2.2 - rgb2q p2.1 p2.2.1 p2.2.2
      0.5053 * y * y + 0.299 * i * i + 0.1957 * q * q

/-- The list of up-to-8 adjacent coordinates scanned by both `antialiased`
    and `has_many_siblings`: `x` runs over the clamped `[x0, x2]`, and for
    each `x`, `y` runs over the clamped `[y0, y2]`, skipping the center. -/
def clampedNeighbors (x1 y1 width height : Nat) : List (Nat × Nat) :=
  let x0 := x1 - 1
  let y0 := y1 - 1
  let x2 := min (x1 + 1) (width - 1)
  let y2 := min (y1 + 1) (height - 1)
  (List.range' x0 (x2 + 1 - x0)).flatMap fun x =>
    (List.range' y0 (y2 + 1 - y0)).filterMap fun y =>
      if x = x1 ∧ y = y1 then none else some (x, y)

/-- The initial value of the `zeroes` counter:
    `int(x1 == x0 or x1 == x2 or y1 == y0 or y1 == y2)`. -/
def borderSeed (x1 y1 width height : Nat) : Nat :=
  if x1 = x1 - 1 ∨ x1 = min (x1 + 1) (width - 1) ∨
      y1 = y1 - 1 ∨ y1 = min (y1 + 1) (height - 1) then 1 else 0

/-- The `all(img[pos + offset] == img[pos2 + offset] for offset in range(4))`
    test of utils.has_many_siblings. -/
def sameColor (img : List ℤ) (pos pos2 : Nat) : Bool :=
  decide (pxz img pos = pxz img pos2 ∧ pxz img (pos + 1) = pxz img (pos2 + 1) ∧
      pxz img (pos + 2) = pxz img (pos2 + 2) ∧ pxz img (pos + 3) = pxz img (pos2 + 3))

/-- The neighbor scan of utils.has_many_siblings, with its early `return True`
    as soon as the counter exceeds 2. -/
def hmsLoop (img : List ℤ) (pos width : Nat) : List (Nat × Nat) → Nat → Bool
  | [], _ => false
  | (x, y) :: rest, zeroes =>
    let pos2 := (y * width + x) * 4
    let z := if sameColor img pos pos2 then zeroes + 1 else zeroes
    if z > 2 then true else hmsLoop img pos width rest z

/-- utils.has_many_siblings. -/
def has_many_siblings (img : List ℤ) (x1 y1 width height : Nat) : Bool :=
  hmsLoop img ((y1 * width + x1) * 4) width (clampedNeighbors x1 y1 width height)
    (borderSeed x1 y1 width height)

/-- The mutable scan state of utils.antialiased. -/
structure AAState where
  zeroes : Nat
  minDelta : ℚ
  maxDelta : ℚ
  minX : Nat
  minY : Nat
  maxX : Nat
  maxY : Nat
deriving DecidableEq

/-- Initial scan state of utils.antialiased (border pixels seed `zeroes` at 1). -/
def initAA (x1 y1 width height : Nat) : AAState :=
  ⟨borderSeed x1 y1 width height, 0, 0, 0, 0, 0, 0⟩

/-- One neighbor step of the utils.antialiased scan (the if/elif/elif chain),
    without the early exit. -/
def aaStep (img : List ℤ) (pos width : Nat) (st : AAState) (pr : Nat × Nat) : AAState :=
  let delta := color_delta img img pos ((pr.2 * width + pr.1) * 4) true
  if delta = 0 then { st with zeroes := st.zeroes + 1 }
  else if delta < st.minDelta then { st with minDelta := delta, minX := pr.1, minY := pr.2 }
  else if delta > st.maxDelta then { st with maxDelta := delta, maxX := pr.1, maxY := pr.2 }
  else st

/-- The neighbor loop of utils.antialiased, with the early `return False`
    (`none`) as soon as `zeroes` exceeds 2. -/
def aaLoop (img : List ℤ) (pos width : Nat) : List (Nat × Nat) → AAState → Option AAState
  | [], st => some st
  | pr :: rest, st =>
    let delta := color_delta img img pos ((pr.2 * width + pr.1) * 4) true
    if delta = 0 then
      let z := st.zeroes + 1
      if z > 2 then none
      else aaLoop img pos width rest { st with zeroes := z }
    else if delta < st.minDelta then
      aaLoop img pos width rest { st with minDelta := delta, minX := pr.1, minY := pr.2 }
    else if delta > st.maxDelta then
      aaLoop img pos width rest { st with maxDelta := delta, maxX := pr.1, maxY := pr.2 }
    else aaLoop img pos width rest st

/-- The same scan run to completion with no early exit (specification device
    used to characterize `aaLoop`). -/
def aaFold (img : List ℤ) (pos width : Nat) : List (Nat × Nat) → AAState → AAState
  | [], st => st
  | pr :: rest, st => aaFold img pos width rest (aaStep img pos width st pr)

/-- The full-scan state of the `antialiased` neighbor scan at (x1, y1). -/
def aaScanState (img : List ℤ) (x1 y1 width height : Nat) : AAState :=
  aaFold img ((y1 * width + x1) * 4) width (clampedNeighbors x1 y1 width height)
    (initAA x1 y1 width height)

/-- The brightness-only delta between the center (x1, y1) and the neighbor
    `pr` in the same image, as computed inside utils.antialiased. -/
def neighborDelta (img : List ℤ) (x1 y1 width : Nat) (pr : Nat × Nat) : ℚ :=
  color_delta img img ((y1 * width + x1) * 4) ((pr.2 * width + pr.1) * 4) true

/-- utils.antialiased. -/
def antialiased (img : List ℤ) (x1 y1 width height : Nat) (img2 : List ℤ) : Bool :=
  let pos := (y1 * width + x1) * 4
  match aaLoop img pos width (clampedNeighbors x1 y1 width height)
      (initAA x1 y1 width height) with
  | none => false
  | some st =>
    if st.minDelta = 0 ∨ st.maxDelta = 0 then false
    else
      (has_many_siblings img st.minX st.minY width height &&
        has_many_siblings img2 st.minX st.minY width height) ||
      (has_many_siblings img st.maxX st.maxY width height &&
        has_many_siblings img2 st.maxX st.maxY width height)

/-- Python `int()`: truncation toward zero. -/
def pyInt (q : ℚ) : ℤ := if 0 ≤ q then ⌊q⌋ else -⌊-q⌋

/-- utils.draw_pixel: write `(int r, int g, int b, 255)` at offset `pos`. -/
def draw_pixel (output : List ℤ) (pos : Nat) (r g b : ℚ) : List ℤ :=
  (((output.set pos (pyInt r)).set (pos + 1) (pyInt g)).set (pos + 2) (pyInt b)).set (pos + 3) 255

/-- The scalar gray value computed by utils.draw_gray_pixel: the luma of the
    source pixel blended toward white with `alpha` scaled by the pixel's own
    alpha channel. -/
def grayVal (img : List ℤ) (i : Nat) (alpha : ℚ) : ℚ :=
  blend (rgb2y (px img i) (px img (i + 1)) (px img (i + 2))) (alpha * px img (i + 3) / 255)

/-- utils.draw_gray_pixel. -/
def draw_gray_pixel (img : List ℤ) (i : Nat) (alpha : ℚ) (output : List ℤ) : List ℤ :=
  draw_pixel output i (grayVal img i alpha) (grayVal img i alpha) (grayVal img i alpha)

/-- The keyword configuration of core.pixelmatch, with its defaults. -/
structure Config where
  threshold : ℚ := 0.1
  includeAA : Bool := false
  alpha : ℚ := 0.1
  aa_color : ℤ × ℤ × ℤ := (255, 255, 0)
  diff_color : ℤ × ℤ × ℤ := (255, 0, 0)
  diff_mask : Bool := false
  fail_fast : Bool := false
deriving DecidableEq

/-- The default configuration. -/
def defaultConfig : Config := {}

/-- The ValueError raised by core.pixelmatch validation, carrying the actual
    lengths exactly as the Python exception arguments do. -/
inductive PMError where
  | sizeMismatch (len1 len2 : Nat)
  | outputMismatch (len1 lenOut : Nat)
  | dimMismatch (len1 expected : Nat)
deriving DecidableEq, Repr

/-- Python truthiness of the `output` argument: `None` and an empty sequence
    are both falsy. -/
def truthy : Option (List ℤ) → Bool
  | none => false
  | some l => !l.isEmpty

/-- `len(output)` (only ever used under `truthy`). -/
def outLen : Option (List ℤ) → Nat
  | none => 0
  | some l => l.length

/-- The fast-path fill loop of core.pixelmatch:
    `for i in range(width * height): draw_gray_pixel(img1, 4 * i, alpha, output)`. -/
def grayFill (img : List ℤ) (alpha : ℚ) (n : Nat) (o : List ℤ) : List ℤ :=
  (List.range n).foldl (fun acc i => draw_gray_pixel img (4 * i) alpha acc) o

/-- `maxDelta = 35215 * threshold * threshold`. -/
def maxDeltaOf (cfg : Config) : ℚ := 35215 * cfg.threshold * cfg.threshold

/-- The row-major pixel sweep order of core.pixelmatch
    (`for y in range(height): for x in range(width)`). -/
def pixelList (width height : Nat) : List (Nat × Nat) :=
  (List.range height).flatMap fun y => (List.range width).map fun x => (x, y)

/-- The per-pixel comparison loop of core.pixelmatch, carrying the diff count
    and the output buffer, with the fail-fast early return. -/
def sweepLoop (img1 img2 : List ℤ) (width height : Nat) (cfg : Config) (maxDelta : ℚ) :
    List (Nat × Nat) → Nat → Option (List ℤ) → Nat × Option (List ℤ)
  | [], diff, out => (diff, out)
  | (x, y) :: rest, diff, out =>
    let pos := (y * width + x) * 4
    let delta := color_delta img1 img2 pos pos false
    if delta > maxDelta then
      if !cfg.includeAA &&
          (antialiased img1 x y width height img2 || antialiased img2 x y width height img1) then
        let out1 := if truthy out && !cfg.diff_mask then
            out.map fun l =>
              draw_pixel l pos (cfg.aa_color.1 : ℚ) (cfg.aa_color.2.1 : ℚ) (cfg.aa_color.2.2 : ℚ)
          else out
        sweepLoop img1 img2 width height cfg maxDelta rest diff out1
      else
        let out1 := if truthy out then
            out.map fun l =>
              draw_pixel l pos (cfg.diff_color.1 : ℚ) (cfg.diff_color.2.1 : ℚ) (cfg.diff_color.2.2 : ℚ)
          else out
        if cfg.fail_fast then (1, out1)
        else sweepLoop img1 img2 width height cfg maxDelta rest (diff + 1) out1
    else
      let out1 := if truthy out && !cfg.diff_mask then
          out.map fun l => draw_gray_pixel img1 pos cfg.alpha l
        else out
      sweepLoop img1 img2 width height cfg maxDelta rest diff out1

/-- core.pixelmatch.  Returns the diff count (or a validation error carrying
    the actual lengths) together with the final state of the output buffer. -/
def pixelmatch (img1 img2 : List ℤ) (width height : Nat) (output : Option (List ℤ))
    (cfg : Config) : Except PMError Nat × Option (List ℤ) :=
  if img1.length ≠ img2.length then
    (.error (.sizeMismatch img1.length img2.length), output)
  else if truthy output && decide (outLen output ≠ img1.length) then
    (.error (.outputMismatch img1.length (outLen output)), output)
  else if img1.length ≠ width * height * 4 then
    (.error (.dimMismatch img1.length (width * height * 4)), output)
  else if img1 = img2 then
    (.ok 0,
      if truthy output && !cfg.diff_mask then
        output.map (grayFill img1 cfg.alpha (width * height))
      else output)
  else
    let res := sweepLoop img1 img2 width height cfg (maxDeltaOf cfg)
      (pixelList width height) 0 output
    (.ok res.1, res.2)

/-- Whether the pixel `pr` is counted as a real difference by the sweep: its
    color delta is above `maxDelta` and it is not skipped as anti-aliasing. -/
def countedPx (img1 img2 : List ℤ) (width height : Nat) (includeAA : Bool) (maxDelta : ℚ)
    (pr : Nat × Nat) : Bool :=
  decide (color_delta img1 img2 ((pr.2 * width + pr.1) * 4) ((pr.2 * width + pr.1) * 4) false
      > maxDelta) &&
  !(!includeAA &&
    (antialiased img1 pr.1 pr.2 width height img2 || antialiased img2 pr.1 pr.2 width height img1))

/-- The value painted into byte `k` of a real-diff pixel quad: the diff color
    with alpha forced to 255. -/
def diffPaint (cfg : Config) (k : Nat) : ℤ :=
  [cfg.diff_color.1, cfg.diff_color.2.1, cfg.diff_color.2.2, 255].getD k 0

/-- The value carried by an `ok` result (0 for an error). -/
def okValue : Except PMError Nat → Nat
  | .ok n => n
  | .error _ => 0

/-- A concrete 1x1 opaque black image (spec section 8 scenario). -/
def wBlack : List ℤ := [0, 0, 0, 255]

/-- A concrete 1x1 opaque white image (spec section 8 scenario). -/
def wWhite : List ℤ := [255, 255, 255, 255]

/-- An opaque gray quad. -/
def gq (v : ℤ) : List ℤ := [v, v, v, 255]

/-- A concrete 3x3 grayscale image whose center pixel (1, 1) is classified as
    anti-aliased: a brighter left column, a darker right column, one
    equal-brightness neighbor above and below. -/
def wAA : List ℤ := gq 200 ++ gq 200 ++ gq 50 ++ gq 200 ++ gq 100 ++ gq 50 ++
  gq 200 ++ gq 100 ++ gq 50

/-- The default configuration in mask mode. -/
def cfgMask : Config := { defaultConfig with diff_mask := true }

/-- The buffer indices read by the 3x3 neighbor scans of `antialiased` and
    `has_many_siblings` centered at (x1, y1): the four bytes of the center
    pixel and the four bytes of every clamped neighbor. -/
def windowIndices (x1 y1 width height : Nat) : List Nat :=
  ((x1, y1) :: clampedNeighbors x1 y1 width height).flatMap fun pr =>
    [(pr.2 * width + pr.1) * 4, (pr.2 * width + pr.1) * 4 + 1,
      (pr.2 * width + pr.1) * 4 + 2, (pr.2 * width + pr.1) * 4 + 3]

/-! ## Basic lemmas about buffer writes -/

theorem getD_set (l : List ℤ) (i j : Nat) (v : ℤ) :
    (l.set i v).getD j 0 = if i = j ∧ i < l.length then v else l.getD j 0 := by
  rw [List.getD_eq_getElem?_getD, List.getD_eq_getElem?_getD, List.getElem?_set]
  by_cases hij : i = j
  · subst hij
    by_cases hlt : i < l.length
    · simp [hlt]
    · simp only [hlt, and_false, if_false, if_true]
      rw [List.getElem?_eq_none (by omega)]
  · simp [hij]

theorem draw_pixel_length (o : List ℤ) (pos : Nat) (r g b : ℚ) :
    (draw_pixel o pos r g b).length = o.length := by
  simp [draw_pixel]

theorem draw_pixel_getD (o : List ℤ) (pos : Nat) (r g b : ℚ) (hlen : pos + 3 < o.length)
    (j : Nat) :
    (draw_pixel o pos r g b).getD j 0 =
      if j = pos then pyInt r else if j = pos + 1 then pyInt g
      else if j = pos + 2 then pyInt b else if j = pos + 3 then (255 : ℤ)
      else o.getD j 0 := by
  unfold draw_pixel
  rw [getD_set, getD_set, getD_set, getD_set]
  simp only [List.length_set]
  split_ifs <;> omega

theorem draw_pixel_getD_outside (o : List ℤ) (pos : Nat) (r g b : ℚ) (j : Nat)
    (hj : j < pos ∨ pos + 3 < j) :
    (draw_pixel o pos r g b).getD j 0 = o.getD j 0 := by
  unfold draw_pixel
  rw [getD_set, getD_set, getD_set, getD_set]
  split_ifs <;> omega

theorem draw_gray_pixel_length (img : List ℤ) (i : Nat) (a : ℚ) (o : List ℤ) :
    (draw_gray_pixel img i a o).length = o.length := by
  simp [draw_gray_pixel, draw_pixel_length]

/-- `pyInt` is the identity on integer values. -/
theorem pyInt_intCast (n : ℤ) : pyInt (n : ℚ) = n := by
  unfold pyInt
  split_ifs with h0
  · exact Int.floor_intCast n
  · rw [show (-(n : ℚ)) = ((-n : ℤ) : ℚ) by push_cast; ring, Int.floor_intCast]
    ring

/-! ## C7: has_many_siblings counts exact-color neighbors with early exit -/

theorem borderSeed_le_one (x1 y1 width height : Nat) : borderSeed x1 y1 width height ≤ 1 := by
  unfold borderSeed
  split_ifs <;> omega

theorem hmsLoop_eq_countP (img : List ℤ) (pos width : Nat) (ns : List (Nat × Nat)) :
    ∀ z : Nat, z ≤ 2 →
    hmsLoop img pos width ns z =
      decide (2 < z + ns.countP fun pr => sameColor img pos ((pr.2 * width + pr.1) * 4)) := by
  induction ns with
  | nil =>
    intro z hz
    rw [Bool.eq_iff_iff, decide_eq_true_eq]
    simp only [hmsLoop, List.countP_nil, Nat.add_zero]
    constructor
    · intro h; exact absurd h (by simp)
    · intro h; omega
  | cons pr rest ih =>
    intro z hz
    obtain ⟨x, y⟩ := pr
    have hstep : hmsLoop img pos width ((x, y) :: rest) z =
        if (if sameColor img pos ((y * width + x) * 4) then z + 1 else z) > 2 then true
        else hmsLoop img pos width rest
          (if sameColor img pos ((y * width + x) * 4) then z + 1 else z) := rfl
    rw [Bool.eq_iff_iff, decide_eq_true_eq, hstep, List.countP_cons]
    by_cases hc : sameColor img pos ((y * width + x) * 4) = true
    · rw [hc]
      simp only [eq_self_iff_true, if_true]
      by_cases hz3 : z + 1 > 2
      · rw [if_pos hz3]
        constructor
        · intro _
          have : 0 ≤ List.countP (fun pr => sameColor img pos ((pr.2 * width + pr.1) * 4)) rest :=
            Nat.zero_le _
          omega
        · intro _; rfl
      · rw [if_neg hz3, ih (z + 1) (by omega), decide_eq_true_eq]
        constructor <;> intro h <;> omega
    · rw [Bool.not_eq_true] at hc
      rw [hc]
      simp only [Bool.false_eq_true, if_false]
      have hz3 : ¬ z > 2 := by omega
      rw [if_neg hz3, ih z hz, decide_eq_true_eq]
      constructor <;> intro h <;> omega

/-- Claim C7: `has_many_siblings(img, x, y, width, height)` returns true if and
only if the number of clamped 3x3 neighbors whose four channels are all exactly
equal to the center pixel's, plus a seed of 1 when (x, y) lies on the image
border, exceeds 2; the scan exits early but the boolean result equals that of
the full count. -/
theorem claim_C7 (img : List ℤ) (x1 y1 width height : Nat) :
    has_many_siblings img x1 y1 width height =
      decide (2 < borderSeed x1 y1 width height +
        (clampedNeighbors x1 y1 width height).countP
          fun pr => sameColor img ((y1 * width + x1) * 4) ((pr.2 * width + pr.1) * 4)) := by
  unfold has_many_siblings
  exact hmsLoop_eq_countP img ((y1 * width + x1) * 4) width _ _
    (le_trans (borderSeed_le_one x1 y1 width height) (by omega))

/-! ## C9: the clamped 3x3 neighbor scans stay in bounds -/

theorem mem_clampedNeighbors (x1 y1 width height : Nat) (pr : Nat × Nat)
    (hmem : pr ∈ clampedNeighbors x1 y1 width height) :
    pr.1 ≤ min (x1 + 1) (width - 1) ∧ pr.2 ≤ min (y1 + 1) (height - 1) := by
  unfold clampedNeighbors at hmem
  simp only [List.mem_flatMap, List.mem_filterMap, List.mem_range'] at hmem
  obtain ⟨x, ⟨i, hi, hx⟩, y, ⟨⟨i2, hi2, hy⟩, hne⟩⟩ := hmem
  split at hne
  · exact absurd hne (by simp)
  · cases hne
    constructor <;> omega

/-- Claim C9: for every image of width and height at least 1 and every
in-bounds center pixel, the 3x3 neighbor scans of `antialiased` and
`has_many_siblings` only read buffer indices in [0, width*height*4): the
clamped window degenerates correctly and never indexes out of bounds
(`windowIndices` enumerates the four bytes of the center pixel and of every
clamped neighbor, which are exactly the reads both scans perform). -/
theorem claim_C9 (width height x1 y1 : Nat) (hw : 1 ≤ width) (hh : 1 ≤ height)
    (hx : x1 < width) (hy : y1 < height) :
    ∀ i ∈ windowIndices x1 y1 width height, i < width * height * 4 := by
  intro i hi
  unfold windowIndices at hi
  simp only [List.mem_flatMap, List.mem_cons] at hi
  obtain ⟨pr, hpr, hin⟩ := hi
  have hbound : pr.1 < width ∧ pr.2 < height := by
    rcases hpr with heq | hmem
    · subst heq; exact ⟨hx, hy⟩
    · have := mem_clampedNeighbors x1 y1 width height pr hmem
      constructor <;> omega
  have hpos : pr.2 * width + pr.1 < height * width := by
    calc pr.2 * width + pr.1 < pr.2 * width + width := by omega
    _ = (pr.2 + 1) * width := by ring
    _ ≤ height * width := Nat.mul_le_mul_right width (by omega)
  have hq : (pr.2 * width + pr.1) * 4 + 3 < width * height * 4 := by
    have h4 : ((pr.2 * width + pr.1) + 1) * 4 ≤ (height * width) * 4 :=
      Nat.mul_le_mul_right 4 (by omega)
    have hcomm : height * width = width * height := Nat.mul_comm height width
    omega
  simp only [List.mem_cons, List.not_mem_nil, or_false] at hin
  rcases hin with rfl | rfl | rfl | rfl <;> omega

/-! ## C1: validation runs before any pixel work -/

/-- Claim C1: validation runs before any pixel work; `pixelmatch` fails exactly
when `len(img1) != len(img2)`, or the output buffer is present (truthy) with
`len(output) != len(img1)`, or `len(img1) != width*height*4`; on any violation
the error carries the actual lengths and the output buffer is returned
unchanged; otherwise the call returns a diff count. -/
theorem claim_C1 (img1 img2 : List ℤ) (width height : Nat) (output : Option (List ℤ))
    (cfg : Config) :
    (img1.length ≠ img2.length →
      pixelmatch img1 img2 width height output cfg =
        (.error (.sizeMismatch img1.length img2.length), output)) ∧
    (img1.length = img2.length → truthy output = true → outLen output ≠ img1.length →
      pixelmatch img1 img2 width height output cfg =
        (.error (.outputMismatch img1.length (outLen output)), output)) ∧
    (img1.length = img2.length → (truthy output = true → outLen output = img1.length) →
      img1.length ≠ width * height * 4 →
      pixelmatch img1 img2 width height output cfg =
        (.error (.dimMismatch img1.length (width * height * 4)), output)) ∧
    (img1.length = img2.length → (truthy output = true → outLen output = img1.length) →
      img1.length = width * height * 4 →
      ∃ n, (pixelmatch img1 img2 width height output cfg).1 = .ok n) := by
  refine ⟨?_, ?_, ?_, ?_⟩
  · intro h1
    unfold pixelmatch
    rw [if_pos h1]
  · intro h1 h2 h3
    unfold pixelmatch
    rw [if_neg (fun hc => hc h1), if_pos (by rw [h2]; simpa using h3)]
  · intro h1 h2 h3
    have hcond : ¬ ((truthy output && decide (outLen output ≠ img1.length)) = true) := by
      intro hc
      simp only [Bool.and_eq_true, decide_eq_true_eq] at hc
      exact hc.2 (h2 hc.1)
    unfold pixelmatch
    rw [if_neg (fun hc => hc h1), if_neg hcond, if_pos h3]
  · intro h1 h2 h3
    have hcond : ¬ ((truthy output && decide (outLen output ≠ img1.length)) = true) := by
      intro hc
      simp only [Bool.and_eq_true, decide_eq_true_eq] at hc
      exact hc.2 (h2 hc.1)
    unfold pixelmatch
    rw [if_neg (fun hc => hc h1), if_neg hcond, if_neg (fun hc => hc h3)]
    by_cases he : img1 = img2
    · rw [if_pos he]
      exact ⟨0, rfl⟩
    · rw [if_neg he]
      exact ⟨_, rfl⟩

/-! ## C10: an empty output buffer is treated exactly as an absent one -/

theorem sweepLoop_fst_out_irrel (img1 img2 : List ℤ) (width height : Nat) (cfg : Config)
    (maxDelta : ℚ) (ns : List (Nat × Nat)) :
    ∀ d out out2,
      (sweepLoop img1 img2 width height cfg maxDelta ns d out).1 =
      (sweepLoop img1 img2 width height cfg maxDelta ns d out2).1 := by
  induction ns with
  | nil => intro d out out2; rfl
  | cons pr rest ih =>
    intro d out out2
    obtain ⟨x, y⟩ := pr
    rw [sweepLoop, sweepLoop]
    split_ifs <;> simp only [] <;> first
      | rfl
      | exact ih _ _ _

theorem sweepLoop_out_falsy (img1 img2 : List ℤ) (width height : Nat) (cfg : Config)
    (maxDelta : ℚ) (ns : List (Nat × Nat)) :
    ∀ d out, truthy out = false →
      (sweepLoop img1 img2 width height cfg maxDelta ns d out).2 = out := by
  induction ns with
  | nil => intro d out _; rfl
  | cons pr rest ih =>
    intro d out hf
    obtain ⟨x, y⟩ := pr
    rw [sweepLoop]
    simp only [hf, Bool.false_and, if_false, Bool.false_eq_true]
    split_ifs <;> first
      | rfl
      | exact ih _ _ hf

/-- Claim C10: a supplied output buffer of length 0 raises no output-size error
and is never written: `pixelmatch` behaves exactly as if `output` were absent
(the validation guard and every painting branch test the buffer's truthiness),
and the returned output state is the empty buffer itself. -/
theorem claim_C10 (img1 img2 : List ℤ) (width height : Nat) (cfg : Config) :
    pixelmatch img1 img2 width height (some []) cfg =
      ((pixelmatch img1 img2 width height none cfg).1, some []) := by
  have hf : truthy (some ([] : List ℤ)) = false := rfl
  have hn : truthy none = false := rfl
  unfold pixelmatch
  simp only [hf, hn, Bool.false_and, Bool.false_eq_true, if_false]
  split_ifs with h1 h2 h3
  · rfl
  · rfl
  · rfl
  · exact Prod.ext
      (congrArg Except.ok (sweepLoop_fst_out_irrel img1 img2 width height cfg (maxDeltaOf cfg)
        (pixelList width height) 0 (some []) none))
      (sweepLoop_out_falsy img1 img2 width height cfg (maxDeltaOf cfg)
        (pixelList width height) 0 (some []) hf)

/-! ## C2: identity comparison returns 0 and fills the output with the
grayscale blend -/

theorem grayFill_succ (img : List ℤ) (a : ℚ) (n : Nat) (o : List ℤ) :
    grayFill img a (n + 1) o = draw_gray_pixel img (4 * n) a (grayFill img a n o) := by
  rw [grayFill, grayFill, List.range_succ, List.foldl_append]
  rfl

theorem grayFill_length (img : List ℤ) (a : ℚ) (n : Nat) (o : List ℤ) :
    (grayFill img a n o).length = o.length := by
  induction n with
  | zero => rfl
  | succ n ih => rw [grayFill_succ, draw_gray_pixel_length, ih]

theorem grayFill_quad (img : List ℤ) (a : ℚ) (n : Nat) (o : List ℤ) :
    ∀ p, p < n → 4 * p + 3 < o.length →
      (grayFill img a n o).getD (4 * p) 0 = pyInt (grayVal img (4 * p) a) ∧
      (grayFill img a n o).getD (4 * p + 1) 0 = pyInt (grayVal img (4 * p) a) ∧
      (grayFill img a n o).getD (4 * p + 2) 0 = pyInt (grayVal img (4 * p) a) ∧
      (grayFill img a n o).getD (4 * p + 3) 0 = 255 := by
  induction n with
  | zero => intro p hp; omega
  | succ n ih =>
    intro p hp hb
    rw [grayFill_succ]
    by_cases hpn : p = n
    · subst hpn
      have hlen : 4 * p + 3 < (grayFill img a p o).length := by rw [grayFill_length]; exact hb
      unfold draw_gray_pixel
      rw [draw_pixel_getD _ _ _ _ _ hlen, draw_pixel_getD _ _ _ _ _ hlen,
        draw_pixel_getD _ _ _ _ _ hlen, draw_pixel_getD _ _ _ _ _ hlen]
      refine ⟨?_, ?_, ?_, ?_⟩ <;> (split_ifs <;> first | rfl | omega)
    · have hplt : p < n := by omega
      have hne := ih p hplt hb
      unfold draw_gray_pixel
      rw [draw_pixel_getD_outside _ _ _ _ _ _ (by omega),
        draw_pixel_getD_outside _ _ _ _ _ _ (by omega),
        draw_pixel_getD_outside _ _ _ _ _ _ (by omega),
        draw_pixel_getD_outside _ _ _ _ _ _ (by omega)]
      exact hne

/-- Claim C2: `pixelmatch(img, img, width, height, ...)` returns 0; and when an
output buffer of matching length is supplied with `diff_mask = false`, every
pixel of the output is filled with the grayscale value of the corresponding
`img` pixel blended toward white using `alpha` scaled by that pixel's own alpha
channel, with the output alpha channel set to 255. -/
theorem claim_C2 (img : List ℤ) (width height : Nat) (o : List ℤ) (cfg : Config)
    (hdim : img.length = width * height * 4) (ho : o.length = img.length)
    (hmask : cfg.diff_mask = false) :
    (pixelmatch img img width height none cfg).1 = .ok 0 ∧
    (pixelmatch img img width height (some o) cfg).1 = .ok 0 ∧
    ∃ o2, (pixelmatch img img width height (some o) cfg).2 = some o2 ∧
      o2.length = o.length ∧
      ∀ p, p < width * height →
        o2.getD (4 * p) 0 = pyInt (grayVal img (4 * p) cfg.alpha) ∧
        o2.getD (4 * p + 1) 0 = pyInt (grayVal img (4 * p) cfg.alpha) ∧
        o2.getD (4 * p + 2) 0 = pyInt (grayVal img (4 * p) cfg.alpha) ∧
        o2.getD (4 * p + 3) 0 = 255 := by
  have hsome : pixelmatch img img width height (some o) cfg =
      (.ok 0, if truthy (some o) && !cfg.diff_mask then
          (some o).map (grayFill img cfg.alpha (width * height)) else some o) := by
    unfold pixelmatch
    rw [if_neg (fun hc : img.length ≠ img.length => hc rfl)]
    rw [if_neg (by
      intro hc
      simp only [Bool.and_eq_true, decide_eq_true_eq] at hc
      exact hc.2 (by rw [outLen, ho]))]
    rw [if_neg (fun hc => hc hdim), if_pos rfl]
  have hnone : pixelmatch img img width height none cfg = (.ok 0, none) := by
    unfold pixelmatch
    rw [if_neg (fun hc : img.length ≠ img.length => hc rfl)]
    rw [if_neg (by intro hc; simp only [truthy, Bool.false_and] at hc; exact absurd hc (by simp))]
    rw [if_neg (fun hc => hc hdim), if_pos rfl]
    rfl
  refine ⟨by rw [hnone], by rw [hsome], ?_⟩
  by_cases hemp : o.isEmpty
  · have hoe : o = [] := List.isEmpty_iff.mp hemp
    have hwh : width * height = 0 := by
      subst hoe
      simp only [List.length_nil] at ho
      omega
    refine ⟨o, ?_, rfl, ?_⟩
    · rw [hsome]
      have ht : truthy (some o) = false := by rw [truthy, hemp]; rfl
      rw [ht]
      simp
    · intro p hp
      rw [hwh] at hp
      omega
  · refine ⟨grayFill img cfg.alpha (width * height) o, ?_, grayFill_length _ _ _ _, ?_⟩
    · rw [hsome]
      rw [Bool.not_eq_true] at hemp
      have ht : truthy (some o) = true := by rw [truthy, hemp]; rfl
      rw [ht, hmask]
      rfl
    · intro p hp
      exact grayFill_quad img cfg.alpha (width * height) o p hp (by omega)

/-! ## C3: the diff count is symmetric in the two images -/

theorem color_delta_symm (A B : List ℤ) (k : Nat) :
    color_delta A B k k false = color_delta B A k k false := by
  unfold color_delta
  by_cases hc : pxz A (k + 3) = pxz B (k + 3) ∧ pxz A k = pxz B k ∧
      pxz A (k + 1) = pxz B (k + 1) ∧ pxz A (k + 2) = pxz B (k + 2)
  · rw [if_pos hc, if_pos ⟨hc.1.symm, hc.2.1.symm, hc.2.2.1.symm, hc.2.2.2.symm⟩]
  · rw [if_neg hc,
      if_neg (show ¬(pxz B (k + 3) = pxz A (k + 3) ∧ pxz B k = pxz A k ∧
          pxz B (k + 1) = pxz A (k + 1) ∧ pxz B (k + 2) = pxz A (k + 2)) from
        fun hc2 => hc ⟨hc2.1.symm, hc2.2.1.symm, hc2.2.2.1.symm, hc2.2.2.2.symm⟩)]
    dsimp only
    rw [if_neg (show ¬((false : Bool) = true) by simp),
      if_neg (show ¬((false : Bool) = true) by simp)]
    ring

theorem sweepLoop_fst_symm (A B : List ℤ) (w h : Nat) (cfg : Config) (maxDelta : ℚ)
    (ns : List (Nat × Nat)) :
    ∀ d out out2,
      (sweepLoop A B w h cfg maxDelta ns d out).1 =
      (sweepLoop B A w h cfg maxDelta ns d out2).1 := by
  induction ns with
  | nil => intro d out out2; rfl
  | cons pr rest ih =>
    intro d out out2
    obtain ⟨x, y⟩ := pr
    rw [sweepLoop, sweepLoop,
      ← color_delta_symm A B ((y * w + x) * 4),
      Bool.or_comm (antialiased B x y w h A) (antialiased A x y w h B)]
    split_ifs <;> simp only [] <;> first
      | rfl
      | exact ih _ _ _

/-- Claim C3: for valid equal-sized buffers and any configuration, the result
of `pixelmatch(A, B, ...)` (diff count, or the validation error) equals the
result of `pixelmatch(B, A, ...)` with the same configuration; only the output
buffer contents may differ. -/
theorem claim_C3 (A B : List ℤ) (width height : Nat) (out : Option (List ℤ)) (cfg : Config)
    (hAB : A.length = B.length) (hdim : A.length = width * height * 4) :
    (pixelmatch A B width height out cfg).1 = (pixelmatch B A width height out cfg).1 := by
  unfold pixelmatch
  rw [hAB] at hdim ⊢
  rw [if_neg (fun hc : B.length ≠ B.length => hc rfl),
    if_neg (fun hc : B.length ≠ B.length => hc rfl)]
  by_cases hc2 : (truthy out && decide (outLen out ≠ B.length)) = true
  · rw [if_pos hc2, if_pos hc2]
  · rw [if_neg hc2, if_neg hc2,
      if_neg (show ¬(B.length ≠ width * height * 4) from fun hc => hc hdim),
      if_neg (show ¬(B.length ≠ width * height * 4) from fun hc => hc hdim)]
    by_cases he : A = B
    · rw [if_pos he, if_pos (show B = A from he.symm)]
    · rw [if_neg he, if_neg (show ¬(B = A) from fun hc => he hc.symm)]
      exact congrArg Except.ok (sweepLoop_fst_symm A B width height cfg (maxDeltaOf cfg)
        (pixelList width height) 0 out out)

/-! ## Closed forms for the diff count of the sweep -/

theorem sweepLoop_fst_count (A B : List ℤ) (w h : Nat) (cfg : Config) (maxDelta : ℚ)
    (hff : cfg.fail_fast = false) (ns : List (Nat × Nat)) :
    ∀ d out, (sweepLoop A B w h cfg maxDelta ns d out).1 =
      d + ns.countP (countedPx A B w h cfg.includeAA maxDelta) := by
  induction ns with
  | nil => intro d out; simp [sweepLoop]
  | cons pr rest ih =>
    intro d out
    obtain ⟨x, y⟩ := pr
    rw [sweepLoop, List.countP_cons]
    by_cases h1 : color_delta A B ((y * w + x) * 4) ((y * w + x) * 4) false > maxDelta
    · rw [if_pos h1]
      by_cases h2 : (!cfg.includeAA &&
          (antialiased A x y w h B || antialiased B x y w h A)) = true
      · rw [if_pos h2]
        have hcnt : countedPx A B w h cfg.includeAA maxDelta (x, y) = false := by
          unfold countedPx
          simp only [h2, Bool.not_true, Bool.and_false]
        rw [ih]
        simp [hcnt]
      · rw [if_neg h2, hff]
        simp only [Bool.false_eq_true, if_false]
        rw [ih]
        have hcnt : countedPx A B w h cfg.includeAA maxDelta (x, y) = true := by
          unfold countedPx
          rw [Bool.not_eq_true] at h2
          simp only [h2, Bool.not_false, Bool.and_true, decide_eq_true_eq]
          exact h1
        simp only [hcnt, if_pos]
        omega
    · rw [if_neg h1, ih]
      have hcnt : countedPx A B w h cfg.includeAA maxDelta (x, y) = false := by
        unfold countedPx
        simp only [Bool.and_eq_false_iff]
        left
        simpa using h1
      simp [hcnt]

theorem sweepLoop_fst_failfast (A B : List ℤ) (w h : Nat) (cfg : Config) (maxDelta : ℚ)
    (hff : cfg.fail_fast = true) (ns : List (Nat × Nat)) :
    ∀ d out, (sweepLoop A B w h cfg maxDelta ns d out).1 =
      if ns.any (countedPx A B w h cfg.includeAA maxDelta) then 1 else d := by
  induction ns with
  | nil => intro d out; simp [sweepLoop]
  | cons pr rest ih =>
    intro d out
    obtain ⟨x, y⟩ := pr
    rw [sweepLoop, List.any_cons]
    by_cases h1 : color_delta A B ((y * w + x) * 4) ((y * w + x) * 4) false > maxDelta
    · rw [if_pos h1]
      by_cases h2 : (!cfg.includeAA &&
          (antialiased A x y w h B || antialiased B x y w h A)) = true
      · rw [if_pos h2]
        have hcnt : countedPx A B w h cfg.includeAA maxDelta (x, y) = false := by
          unfold countedPx
          simp only [h2, Bool.not_true, Bool.and_false]
        rw [ih, hcnt, Bool.false_or]
      · rw [if_neg h2, hff]
        have hcnt : countedPx A B w h cfg.includeAA maxDelta (x, y) = true := by
          unfold countedPx
          rw [Bool.not_eq_true] at h2
          simp only [h2, Bool.not_false, Bool.and_true, decide_eq_true_eq]
          exact h1
        rw [hcnt, Bool.true_or]
        rfl
    · have hcnt : countedPx A B w h cfg.includeAA maxDelta (x, y) = false := by
        unfold countedPx
        simp only [Bool.and_eq_false_iff]
        left
        simpa using h1
      rw [if_neg h1, ih, hcnt, Bool.false_or]

/-- Evaluation of the first component of a validation-passing full-scan call. -/
theorem pixelmatch_fst_count (A B : List ℤ) (w h : Nat) (out : Option (List ℤ)) (cfg : Config)
    (hAB : A.length = B.length) (hout : truthy out = true → outLen out = A.length)
    (hdim : A.length = w * h * 4) (hff : cfg.fail_fast = false) :
    (pixelmatch A B w h out cfg).1 =
      if A = B then .ok 0
      else .ok ((pixelList w h).countP (countedPx A B w h cfg.includeAA (maxDeltaOf cfg))) := by
  unfold pixelmatch
  rw [if_neg (fun hc => hc hAB),
    if_neg (show ¬((truthy out && decide (outLen out ≠ A.length)) = true) by
      intro hc
      simp only [Bool.and_eq_true, decide_eq_true_eq] at hc
      exact hc.2 (hout hc.1)),
    if_neg (fun hc => hc hdim)]
  by_cases he : A = B
  · rw [if_pos he, if_pos he]
  · rw [if_neg he, if_neg he]
    have := sweepLoop_fst_count A B w h cfg (maxDeltaOf cfg) hff (pixelList w h) 0 out
    rw [Nat.zero_add] at this
    exact congrArg Except.ok this

/-- Evaluation of the first component of a validation-passing fail-fast call. -/
theorem pixelmatch_fst_failfast (A B : List ℤ) (w h : Nat) (out : Option (List ℤ)) (cfg : Config)
    (hAB : A.length = B.length) (hout : truthy out = true → outLen out = A.length)
    (hdim : A.length = w * h * 4) (hff : cfg.fail_fast = true) :
    (pixelmatch A B w h out cfg).1 =
      if A = B then .ok 0
      else .ok (if (pixelList w h).any (countedPx A B w h cfg.includeAA (maxDeltaOf cfg))
        then 1 else 0) := by
  unfold pixelmatch
  rw [if_neg (fun hc => hc hAB),
    if_neg (show ¬((truthy out && decide (outLen out ≠ A.length)) = true) by
      intro hc
      simp only [Bool.and_eq_true, decide_eq_true_eq] at hc
      exact hc.2 (hout hc.1)),
    if_neg (fun hc => hc hdim)]
  by_cases he : A = B
  · rw [if_pos he, if_pos he]
  · rw [if_neg he, if_neg he]
    exact congrArg Except.ok (sweepLoop_fst_failfast A B w h cfg (maxDeltaOf cfg) hff
      (pixelList w h) 0 out)

/-! ## C4: the diff count is non-increasing in the threshold -/

theorem countedPx_mono (A B : List ℤ) (w h : Nat) (inc : Bool) (m1 m2 : ℚ) (hm : m1 ≤ m2)
    (pr : Nat × Nat) (hc : countedPx A B w h inc m2 pr = true) :
    countedPx A B w h inc m1 pr = true := by
  unfold countedPx at hc ⊢
  simp only [Bool.and_eq_true, decide_eq_true_eq] at hc ⊢
  exact ⟨lt_of_le_of_lt hm hc.1, hc.2⟩

/-- Claim C4: for fixed valid images, dimensions and `includeAA`, with
`fail_fast = false`, the diff count is non-increasing in the threshold:
for `0 ≤ t1 ≤ t2` the count at `t2` is at most the count at `t1`. -/
theorem claim_C4 (A B : List ℤ) (width height : Nat) (out : Option (List ℤ)) (cfg : Config)
    (t1 t2 : ℚ) (hAB : A.length = B.length)
    (hout : truthy out = true → outLen out = A.length)
    (hdim : A.length = width * height * 4) (hff : cfg.fail_fast = false)
    (h0 : 0 ≤ t1) (h12 : t1 ≤ t2) :
    ((pixelmatch A B width height out { cfg with threshold := t1 }).1).isOk = true ∧
    ((pixelmatch A B width height out { cfg with threshold := t2 }).1).isOk = true ∧
    okValue ((pixelmatch A B width height out { cfg with threshold := t2 }).1) ≤
      okValue ((pixelmatch A B width height out { cfg with threshold := t1 }).1) := by
  have hf1 := pixelmatch_fst_count A B width height out { cfg with threshold := t1 }
    hAB hout hdim hff
  have hf2 := pixelmatch_fst_count A B width height out { cfg with threshold := t2 }
    hAB hout hdim hff
  have hmd : maxDeltaOf { cfg with threshold := t1 } ≤ maxDeltaOf { cfg with threshold := t2 } := by
    show 35215 * t1 * t1 ≤ 35215 * t2 * t2
    nlinarith [mul_self_le_mul_self h0 h12]
  by_cases he : A = B
  · rw [hf1, hf2, if_pos he, if_pos he]
    exact ⟨rfl, rfl, le_refl _⟩
  · rw [hf1, hf2, if_neg he, if_neg he]
    refine ⟨rfl, rfl, ?_⟩
    show (pixelList width height).countP _ ≤ (pixelList width height).countP _
    apply List.countP_mono_left
    intro pr _ hc
    exact countedPx_mono A B width height cfg.includeAA _ _ hmd pr hc

/-! ## C5: fail-fast consistency with the full scan -/

/-- Claim C5: whenever the full scan (`fail_fast = false`) returns count `n`,
the identical call with `fail_fast = true` returns exactly 1 if `n > 0` and 0
if `n = 0` (it stops at the first counted pixel). -/
theorem claim_C5 (A B : List ℤ) (width height : Nat) (out : Option (List ℤ)) (cfg : Config)
    (n : Nat) (hAB : A.length = B.length)
    (hout : truthy out = true → outLen out = A.length)
    (hdim : A.length = width * height * 4) (hff : cfg.fail_fast = false)
    (hn : (pixelmatch A B width height out cfg).1 = .ok n) :
    (pixelmatch A B width height out { cfg with fail_fast := true }).1 =
      .ok (if n = 0 then 0 else 1) := by
  have hf1 := pixelmatch_fst_count A B width height out cfg hAB hout hdim hff
  have hf2 := pixelmatch_fst_failfast A B width height out { cfg with fail_fast := true }
    hAB hout hdim rfl
  have hsame : countedPx A B width height ({ cfg with fail_fast := true } : Config).includeAA
      (maxDeltaOf { cfg with fail_fast := true }) =
      countedPx A B width height cfg.includeAA (maxDeltaOf cfg) := rfl
  rw [hsame] at hf2
  by_cases he : A = B
  · rw [if_pos he] at hf1 hf2
    rw [hf1] at hn
    have hn0 : n = 0 := (Except.ok.injEq _ _ ▸ hn).symm ▸ rfl
    rw [hf2, hn0]
    simp
  · rw [if_neg he] at hf1 hf2
    rw [hf1] at hn
    have hcount : (pixelList width height).countP
        (countedPx A B width height cfg.includeAA (maxDeltaOf cfg)) = n := by
      have := hn
      simp only [Except.ok.injEq] at this
      exact this
    rw [hf2]
    by_cases hany : (pixelList width height).any
        (countedPx A B width height cfg.includeAA (maxDeltaOf cfg)) = true
    · have hpos : 0 < (pixelList width height).countP
          (countedPx A B width height cfg.includeAA (maxDeltaOf cfg)) := by
        rw [List.countP_pos_iff]
        exact List.any_eq_true.mp hany
      rw [hany]
      simp only [if_true]
      have : n ≠ 0 := by omega
      simp [this]
    · rw [Bool.not_eq_true] at hany
      rw [hany]
      have hzero : (pixelList width height).countP
          (countedPx A B width height cfg.includeAA (maxDeltaOf cfg)) = 0 := by
        by_contra hne
        have hpos : 0 < (pixelList width height).countP
            (countedPx A B width height cfg.includeAA (maxDeltaOf cfg)) := by omega
        rw [List.countP_pos_iff] at hpos
        rw [← List.any_eq_true] at hpos
        rw [hany] at hpos
        exact absurd hpos (by simp)
      have hn0 : n = 0 := by omega
      rw [hn0]
      simp

/-! ## C6: characterization of the anti-aliasing classifier -/

theorem aaStep_zeroes_ge (img : List ℤ) (pos width : Nat) (st : AAState) (pr : Nat × Nat) :
    st.zeroes ≤ (aaStep img pos width st pr).zeroes := by
  unfold aaStep
  dsimp only
  split_ifs with h1 h2 h3
  · exact Nat.le_succ _
  · exact le_refl _
  · exact le_refl _
  · exact le_refl _

theorem aaFold_zeroes_ge (img : List ℤ) (pos width : Nat) (ns : List (Nat × Nat)) :
    ∀ st : AAState, st.zeroes ≤ (aaFold img pos width ns st).zeroes := by
  induction ns with
  | nil => intro st; exact le_refl _
  | cons pr rest ih =>
    intro st
    exact le_trans (aaStep_zeroes_ge img pos width st pr) (ih _)

theorem aaStep_min_le (img : List ℤ) (pos width : Nat) (st : AAState) (pr : Nat × Nat) :
    (aaStep img pos width st pr).minDelta ≤ st.minDelta := by
  unfold aaStep
  dsimp only
  split_ifs with h1 h2 h3
  · exact le_refl _
  · exact le_of_lt h2
  · exact le_refl _
  · exact le_refl _

theorem aaStep_max_ge (img : List ℤ) (pos width : Nat) (st : AAState) (pr : Nat × Nat) :
    st.maxDelta ≤ (aaStep img pos width st pr).maxDelta := by
  unfold aaStep
  dsimp only
  split_ifs with h1 h2 h3
  · exact le_refl _
  · exact le_refl _
  · exact le_of_lt h3
  · exact le_refl _

theorem aaFold_min_le (img : List ℤ) (pos width : Nat) (ns : List (Nat × Nat)) :
    ∀ st : AAState, (aaFold img pos width ns st).minDelta ≤ st.minDelta := by
  induction ns with
  | nil => intro st; exact le_refl _
  | cons pr rest ih =>
    intro st
    exact le_trans (ih _) (aaStep_min_le img pos width st pr)

theorem aaFold_max_ge (img : List ℤ) (pos width : Nat) (ns : List (Nat × Nat)) :
    ∀ st : AAState, st.maxDelta ≤ (aaFold img pos width ns st).maxDelta := by
  induction ns with
  | nil => intro st; exact le_refl _
  | cons pr rest ih =>
    intro st
    exact le_trans (aaStep_max_ge img pos width st pr) (ih _)

/-- The early-exit loop agrees with the full scan: it returns `none` exactly
when the full zero count exceeds 2, and the full-scan state otherwise. -/
theorem aaLoop_spec (img : List ℤ) (pos width : Nat) (ns : List (Nat × Nat)) :
    ∀ st : AAState, st.zeroes ≤ 2 →
      aaLoop img pos width ns st =
        if 2 < (aaFold img pos width ns st).zeroes then none
        else some (aaFold img pos width ns st) := by
  induction ns with
  | nil =>
    intro st hst
    rw [aaLoop, aaFold, if_neg (by omega)]
  | cons pr rest ih =>
    intro st hst
    have hfold : aaFold img pos width (pr :: rest) st =
        aaFold img pos width rest (aaStep img pos width st pr) := rfl
    rw [hfold]
    simp only [aaLoop]
    unfold aaStep
    dsimp only
    by_cases h0 : color_delta img img pos ((pr.2 * width + pr.1) * 4) true = 0
    · rw [if_pos h0, if_pos h0]
      by_cases h2 : st.zeroes + 1 > 2
      · rw [if_pos h2]
        by_cases hc : 2 < (aaFold img pos width rest
            ⟨st.zeroes + 1, st.minDelta, st.maxDelta, st.minX, st.minY, st.maxX, st.maxY⟩).zeroes
        · rw [if_pos hc]
        · exfalso
          have hz := aaFold_zeroes_ge img pos width rest
            ⟨st.zeroes + 1, st.minDelta, st.maxDelta, st.minX, st.minY, st.maxX, st.maxY⟩
          have hz2 : st.zeroes + 1 ≤ (aaFold img pos width rest
              ⟨st.zeroes + 1, st.minDelta, st.maxDelta, st.minX, st.minY,
                st.maxX, st.maxY⟩).zeroes := hz
          omega
      · rw [if_neg h2]
        exact ih _ (show st.zeroes + 1 ≤ 2 by omega)
    · rw [if_neg h0, if_neg h0]
      by_cases hmin : color_delta img img pos ((pr.2 * width + pr.1) * 4) true < st.minDelta
      · rw [if_pos hmin, if_pos hmin]
        exact ih _ (show st.zeroes ≤ 2 from hst)
      · rw [if_neg hmin, if_neg hmin]
        by_cases hmax : color_delta img img pos ((pr.2 * width + pr.1) * 4) true > st.maxDelta
        · rw [if_pos hmax, if_pos hmax]
          exact ih _ (show st.zeroes ≤ 2 from hst)
        · rw [if_neg hmax, if_neg hmax]
          exact ih _ hst

/-- Characterization of the recorded darkest/brightest deltas of the full
scan: the recorded minimum is 0 exactly when no scanned neighbor had a
strictly negative delta, and the recorded maximum is 0 exactly when no
scanned neighbor had a strictly positive delta. -/
theorem aaFold_minmax_zero (img : List ℤ) (pos width : Nat) (ns : List (Nat × Nat)) :
    ∀ st : AAState, st.minDelta ≤ 0 → 0 ≤ st.maxDelta →
      (((aaFold img pos width ns st).minDelta = 0 ↔
        (st.minDelta = 0 ∧ ∀ pr ∈ ns, 0 ≤ color_delta img img pos ((pr.2 * width + pr.1) * 4) true)) ∧
       ((aaFold img pos width ns st).maxDelta = 0 ↔
        (st.maxDelta = 0 ∧ ∀ pr ∈ ns, color_delta img img pos ((pr.2 * width + pr.1) * 4) true ≤ 0))) := by
  induction ns with
  | nil =>
    intro st hmin hmax
    constructor
    · rw [aaFold]
      simp
    · rw [aaFold]
      simp
  | cons pr rest ih =>
    intro st hmin hmax
    have hfold : aaFold img pos width (pr :: rest) st =
        aaFold img pos width rest (aaStep img pos width st pr) := rfl
    rw [hfold]
    unfold aaStep
    by_cases h0 : color_delta img img pos ((pr.2 * width + pr.1) * 4) true = 0
    · rw [if_pos h0]
      have := ih { st with zeroes := st.zeroes + 1 } hmin hmax
      constructor
      · rw [this.1]
        simp only [List.mem_cons]
        constructor
        · rintro ⟨hm, hall⟩
          exact ⟨hm, fun q hq => by
            rcases hq with rfl | hq
            · rw [h0]
            · exact hall q hq⟩
        · rintro ⟨hm, hall⟩
          exact ⟨hm, fun q hq => hall q (Or.inr hq)⟩
      · rw [this.2]
        simp only [List.mem_cons]
        constructor
        · rintro ⟨hm, hall⟩
          exact ⟨hm, fun q hq => by
            rcases hq with rfl | hq
            · rw [h0]
            · exact hall q hq⟩
        · rintro ⟨hm, hall⟩
          exact ⟨hm, fun q hq => hall q (Or.inr hq)⟩
    · rw [if_neg h0]
      by_cases hminb : color_delta img img pos ((pr.2 * width + pr.1) * 4) true < st.minDelta
      · rw [if_pos hminb]
        have hneg : color_delta img img pos ((pr.2 * width + pr.1) * 4) true < 0 :=
          lt_of_lt_of_le hminb hmin
        have hih := ih ⟨st.zeroes, color_delta img img pos ((pr.2 * width + pr.1) * 4) true,
          st.maxDelta, pr.1, pr.2, st.maxX, st.maxY⟩ (le_of_lt hneg) hmax
        constructor
        · have hle := aaFold_min_le img pos width rest
            ⟨st.zeroes, color_delta img img pos ((pr.2 * width + pr.1) * 4) true,
              st.maxDelta, pr.1, pr.2, st.maxX, st.maxY⟩
          have hle2 : (aaFold img pos width rest
              ⟨st.zeroes, color_delta img img pos ((pr.2 * width + pr.1) * 4) true,
                st.maxDelta, pr.1, pr.2, st.maxX, st.maxY⟩).minDelta ≤
              color_delta img img pos ((pr.2 * width + pr.1) * 4) true := hle
          constructor
          · intro hzero
            exact absurd hzero (ne_of_lt (lt_of_le_of_lt hle2 hneg))
          · rintro ⟨hm, hall⟩
            exact absurd (hall pr (List.mem_cons_self pr rest)) (not_le.mpr hneg)
        · rw [hih.2]
          simp only [List.mem_cons]
          constructor
          · rintro ⟨hm, hall⟩
            exact ⟨hm, fun q hq => by
              rcases hq with rfl | hq
              · exact le_of_lt hneg
              · exact hall q hq⟩
          · rintro ⟨hm, hall⟩
            exact ⟨hm, fun q hq => hall q (Or.inr hq)⟩
      · rw [if_neg hminb]
        push_neg at hminb
        by_cases hmaxb : color_delta img img pos ((pr.2 * width + pr.1) * 4) true > st.maxDelta
        · rw [if_pos hmaxb]
          have hpos : 0 < color_delta img img pos ((pr.2 * width + pr.1) * 4) true :=
            lt_of_le_of_lt hmax hmaxb
          have hih := ih ⟨st.zeroes, st.minDelta,
            color_delta img img pos ((pr.2 * width + pr.1) * 4) true,
            st.minX, st.minY, pr.1, pr.2⟩ hmin (le_of_lt hpos)
          constructor
          · rw [hih.1]
            simp only [List.mem_cons]
            constructor
            · rintro ⟨hm, hall⟩
              exact ⟨hm, fun q hq => by
                rcases hq with rfl | hq
                · exact le_of_lt hpos
                · exact hall q hq⟩
            · rintro ⟨hm, hall⟩
              exact ⟨hm, fun q hq => hall q (Or.inr hq)⟩
          · have hge := aaFold_max_ge img pos width rest
              ⟨st.zeroes, st.minDelta, color_delta img img pos ((pr.2 * width + pr.1) * 4) true,
                st.minX, st.minY, pr.1, pr.2⟩
            have hge2 : color_delta img img pos ((pr.2 * width + pr.1) * 4) true ≤
                (aaFold img pos width rest
                  ⟨st.zeroes, st.minDelta,
                    color_delta img img pos ((pr.2 * width + pr.1) * 4) true,
                    st.minX, st.minY, pr.1, pr.2⟩).maxDelta := hge
            constructor
            · intro hzero
              exact absurd hzero (ne_of_gt (lt_of_lt_of_le hpos hge2))
            · rintro ⟨hm, hall⟩
              exact absurd (hall pr (List.mem_cons_self pr rest)) (not_le.mpr hpos)
        · rw [if_neg hmaxb]
          push_neg at hmaxb
          have hih := ih st hmin hmax
          constructor
          · rw [hih.1]
            simp only [List.mem_cons]
            constructor
            · rintro ⟨hm, hall⟩
              refine ⟨hm, fun q hq => ?_⟩
              rcases hq with rfl | hq
              · rw [hm] at hminb
                exact hminb
              · exact hall q hq
            · rintro ⟨hm, hall⟩
              exact ⟨hm, fun q hq => hall q (Or.inr hq)⟩
          · rw [hih.2]
            simp only [List.mem_cons]
            constructor
            · rintro ⟨hm, hall⟩
              refine ⟨hm, fun q hq => ?_⟩
              rcases hq with rfl | hq
              · rw [hm] at hmaxb
                exact hmaxb
              · exact hall q hq
            · rintro ⟨hm, hall⟩
              exact ⟨hm, fun q hq => hall q (Or.inr hq)⟩

theorem aaFold_zeroes_count (img : List ℤ) (pos width : Nat) (ns : List (Nat × Nat)) :
    ∀ st : AAState, (aaFold img pos width ns st).zeroes =
      st.zeroes + ns.countP
        (fun pr => decide (color_delta img img pos ((pr.2 * width + pr.1) * 4) true = 0)) := by
  induction ns with
  | nil =>
    intro st
    rw [aaFold, List.countP_nil]
    omega
  | cons pr rest ih =>
    intro st
    have hfold : aaFold img pos width (pr :: rest) st =
        aaFold img pos width rest (aaStep img pos width st pr) := rfl
    rw [hfold, List.countP_cons, ih]
    by_cases h0 : color_delta img img pos ((pr.2 * width + pr.1) * 4) true = 0
    · have h1 : (if (decide (color_delta img img pos ((pr.2 * width + pr.1) * 4) true = 0))
          = true then 1 else 0) = 1 := if_pos (by simp [h0])
      have hz : (aaStep img pos width st pr).zeroes = st.zeroes + 1 := by
        unfold aaStep
        dsimp only
        rw [if_pos h0]
      rw [h1, hz]
      omega
    · have h1 : (if (decide (color_delta img img pos ((pr.2 * width + pr.1) * 4) true = 0))
          = true then 1 else 0) = 0 := if_neg (by simp [h0])
      have hz : (aaStep img pos width st pr).zeroes = st.zeroes := by
        unfold aaStep
        dsimp only
        rw [if_neg h0]
        by_cases hmin : color_delta img img pos ((pr.2 * width + pr.1) * 4) true < st.minDelta
        · rw [if_pos hmin]
        · rw [if_neg hmin]
          by_cases hmax : color_delta img img pos ((pr.2 * width + pr.1) * 4) true > st.maxDelta
          · rw [if_pos hmax]
          · rw [if_neg hmax]
      rw [h1, hz]
      omega

/-- Claim C6: `antialiased(img, x, y, width, height, img2)` returns false as
soon as the equal-brightness-neighbor counter (seeded at 1 on the image
border) exceeds 2 over the clamped 3x3 neighborhood; returns false when no
neighbor with strictly negative or no neighbor with strictly positive
brightness delta was recorded; and otherwise returns true if and only if the
recorded darkest neighbor has many siblings in both images, or the recorded
brightest neighbor has many siblings in both images.  The counter of the scan
state equals the border seed plus the number of zero-delta neighbors. -/
theorem claim_C6 (img img2 : List ℤ) (x1 y1 width height : Nat) :
    ((aaScanState img x1 y1 width height).zeroes = borderSeed x1 y1 width height +
      (clampedNeighbors x1 y1 width height).countP
        (fun pr => decide (neighborDelta img x1 y1 width pr = 0))) ∧
    (2 < (aaScanState img x1 y1 width height).zeroes →
      antialiased img x1 y1 width height img2 = false) ∧
    ((aaScanState img x1 y1 width height).zeroes ≤ 2 →
      ((∀ pr ∈ clampedNeighbors x1 y1 width height, 0 ≤ neighborDelta img x1 y1 width pr) ∨
        (∀ pr ∈ clampedNeighbors x1 y1 width height, neighborDelta img x1 y1 width pr ≤ 0)) →
      antialiased img x1 y1 width height img2 = false) ∧
    ((aaScanState img x1 y1 width height).zeroes ≤ 2 →
      (∃ pr ∈ clampedNeighbors x1 y1 width height, neighborDelta img x1 y1 width pr < 0) →
      (∃ pr ∈ clampedNeighbors x1 y1 width height, 0 < neighborDelta img x1 y1 width pr) →
      antialiased img x1 y1 width height img2 =
        ((has_many_siblings img (aaScanState img x1 y1 width height).minX
            (aaScanState img x1 y1 width height).minY width height &&
          has_many_siblings img2 (aaScanState img x1 y1 width height).minX
            (aaScanState img x1 y1 width height).minY width height) ||
          (has_many_siblings img (aaScanState img x1 y1 width height).maxX
            (aaScanState img x1 y1 width height).maxY width height &&
          has_many_siblings img2 (aaScanState img x1 y1 width height).maxX
            (aaScanState img x1 y1 width height).maxY width height))) := by
  have hinitz : (initAA x1 y1 width height).zeroes ≤ 2 :=
    le_trans (borderSeed_le_one x1 y1 width height) (by omega)
  have hloop := aaLoop_spec img ((y1 * width + x1) * 4) width
    (clampedNeighbors x1 y1 width height) (initAA x1 y1 width height) hinitz
  have hchar := aaFold_minmax_zero img ((y1 * width + x1) * 4) width
    (clampedNeighbors x1 y1 width height) (initAA x1 y1 width height)
    (le_of_eq rfl) (le_of_eq rfl)
  have hs : aaScanState img x1 y1 width height =
      aaFold img ((y1 * width + x1) * 4) width (clampedNeighbors x1 y1 width height)
        (initAA x1 y1 width height) := rfl
  refine ⟨?_, ?_, ?_, ?_⟩
  · rw [hs, aaFold_zeroes_count]
    rfl
  · intro hz
    unfold antialiased
    dsimp only
    rw [hloop, if_pos (by rw [hs] at hz; exact hz)]
  · intro hz hside
    unfold antialiased
    dsimp only
    rw [hloop, if_neg (by rw [hs] at hz; omega)]
    dsimp only
    rcases hside with hall | hall
    · have hmin0 : (aaScanState img x1 y1 width height).minDelta = 0 := by
        rw [hs]
        exact hchar.1.mpr ⟨rfl, fun pr hpr => hall pr hpr⟩
      rw [hs] at hmin0
      rw [if_pos (Or.inl hmin0)]
    · have hmax0 : (aaScanState img x1 y1 width height).maxDelta = 0 := by
        rw [hs]
        exact hchar.2.mpr ⟨rfl, fun pr hpr => hall pr hpr⟩
      rw [hs] at hmax0
      rw [if_pos (Or.inr hmax0)]
  · intro hz hexneg hexpos
    unfold antialiased
    dsimp only
    rw [hloop, if_neg (by rw [hs] at hz; omega)]
    dsimp only
    have hminne : ¬ ((aaFold img ((y1 * width + x1) * 4) width
        (clampedNeighbors x1 y1 width height) (initAA x1 y1 width height)).minDelta = 0) := by
      intro h0
      obtain ⟨pr, hpr, hneg⟩ := hexneg
      exact absurd ((hchar.1.mp h0).2 pr hpr) (not_le.mpr hneg)
    have hmaxne : ¬ ((aaFold img ((y1 * width + x1) * 4) width
        (clampedNeighbors x1 y1 width height) (initAA x1 y1 width height)).maxDelta = 0) := by
      intro h0
      obtain ⟨pr, hpr, hpos⟩ := hexpos
      exact absurd ((hchar.2.mp h0).2 pr hpr) (not_le.mpr hpos)
    rw [if_neg (not_or.mpr ⟨hminne, hmaxne⟩)]
    rw [hs]

/-! ## C8: with diff_mask, only counted diff pixels are written -/

theorem diffPaint_three (cfg : Config) : diffPaint cfg 3 = 255 := rfl

theorem draw_diff_getD (cfg : Config) (o : List ℤ) (pos : Nat) (hlen : pos + 3 < o.length) :
    ∀ k, k < 4 →
      (draw_pixel o pos (cfg.diff_color.1 : ℚ) (cfg.diff_color.2.1 : ℚ)
        (cfg.diff_color.2.2 : ℚ)).getD (pos + k) 0 = diffPaint cfg k := by
  intro k hk
  rw [draw_pixel_getD _ _ _ _ _ hlen]
  interval_cases k
  · rw [if_pos (by omega)]
    rw [pyInt_intCast]
    rfl
  · rw [if_neg (by omega), if_pos (by omega)]
    rw [pyInt_intCast]
    rfl
  · rw [if_neg (by omega), if_neg (by omega), if_pos (by omega)]
    rw [pyInt_intCast]
    rfl
  · rw [if_neg (by omega), if_neg (by omega), if_neg (by omega), if_pos (by omega)]
    rfl

theorem pos_decompose (w : Nat) (pr : Nat × Nat) (hx : pr.1 < w) :
    (pr.2 * w + pr.1) % w = pr.1 ∧ (pr.2 * w + pr.1) / w = pr.2 := by
  constructor
  · rw [Nat.mul_comm pr.2 w, Nat.mul_add_mod]
    exact Nat.mod_eq_of_lt hx
  · rw [Nat.mul_comm pr.2 w, Nat.mul_add_div (by omega), Nat.div_eq_of_lt hx]
    omega

theorem mem_pixelList (w h : Nat) (pr : Nat × Nat) :
    pr ∈ pixelList w h ↔ pr.1 < w ∧ pr.2 < h := by
  unfold pixelList
  simp only [List.mem_flatMap, List.mem_map, List.mem_range]
  constructor
  · rintro ⟨y, hy, x, hx, rfl⟩
    exact ⟨hx, hy⟩
  · intro ⟨hx, hy⟩
    exact ⟨pr.2, hy, pr.1, hx, rfl⟩

theorem pixelList_map_pos (w h : Nat) :
    (pixelList w h).map (fun pr => pr.2 * w + pr.1) = List.range (w * h) := by
  induction h with
  | zero => rfl
  | succ h ih =>
    have hsplit : pixelList w (h + 1) =
        pixelList w h ++ (List.range w).map (fun x => (x, h)) := by
      unfold pixelList
      rw [List.range_succ, List.flatMap_append]
      simp
    rw [hsplit, List.map_append, ih, List.map_map]
    rw [show w * (h + 1) = w * h + w from by ring, List.range_add]
    congr 1
    apply List.map_congr_left
    intro x hx
    simp only [Function.comp_apply]
    ring

theorem pixelList_pairwise (w h : Nat) :
    List.Pairwise (fun a b : Nat × Nat => a.2 * w + a.1 ≠ b.2 * w + b.1) (pixelList w h) := by
  have hnd : ((pixelList w h).map (fun pr => pr.2 * w + pr.1)).Nodup := by
    rw [pixelList_map_pos]
    exact List.nodup_range (w * h)
  rw [List.Nodup, List.pairwise_map] at hnd
  exact hnd

theorem color_delta_self (A : List ℤ) (k : Nat) : color_delta A A k k false = 0 := by
  unfold color_delta
  rw [if_pos ⟨rfl, rfl, rfl, rfl⟩]

theorem maxDeltaOf_nonneg (cfg : Config) : 0 ≤ maxDeltaOf cfg := by
  unfold maxDeltaOf
  nlinarith [mul_self_nonneg cfg.threshold]

theorem countedPx_self_false (A : List ℤ) (w h : Nat) (inc : Bool) (cfg : Config)
    (pr : Nat × Nat) : countedPx A A w h inc (maxDeltaOf cfg) pr = false := by
  unfold countedPx
  simp only [Bool.and_eq_false_iff]
  left
  rw [color_delta_self]
  exact decide_eq_false (not_lt.mpr (maxDeltaOf_nonneg cfg))

/-- The mask-mode sweep: the output changes only inside the quads of counted
diff pixels, the changed bytes hold the diff paint values, and (without
fail-fast) every counted pixel's quad ends up painted. -/
theorem sweepLoop_mask (img1 img2 : List ℤ) (w h : Nat) (cfg : Config) (maxD : ℚ)
    (hmask : cfg.diff_mask = true) (ns : List (Nat × Nat)) :
    ∀ d (o : List ℤ),
      (∀ pr ∈ ns, (pr.2 * w + pr.1) * 4 + 3 < o.length) →
      ∃ o2, (sweepLoop img1 img2 w h cfg maxD ns d (some o)).2 = some o2 ∧
        o2.length = o.length ∧
        (∀ j, o2.getD j 0 ≠ o.getD j 0 →
          ∃ pr ∈ ns, j / 4 = pr.2 * w + pr.1 ∧
            countedPx img1 img2 w h cfg.includeAA maxD pr = true ∧
            o2.getD j 0 = diffPaint cfg (j % 4)) ∧
        (cfg.fail_fast = false →
          List.Pairwise (fun a b : Nat × Nat => a.2 * w + a.1 ≠ b.2 * w + b.1) ns →
          ∀ pr ∈ ns, countedPx img1 img2 w h cfg.includeAA maxD pr = true →
          ∀ k, k < 4 → o2.getD ((pr.2 * w + pr.1) * 4 + k) 0 = diffPaint cfg k) := by
  induction ns with
  | nil =>
    intro d o hbounds
    refine ⟨o, rfl, rfl, ?_, ?_⟩
    · intro j hj
      exact absurd rfl hj
    · intro _ _ pr hpr
      exact absurd hpr (List.not_mem_nil pr)
  | cons pr0 rest ih =>
    intro d o hbounds
    obtain ⟨x, y⟩ := pr0
    have hbrest : ∀ pr ∈ rest, (pr.2 * w + pr.1) * 4 + 3 < o.length :=
      fun pr hpr => hbounds pr (List.mem_cons_of_mem _ hpr)
    have hmf : (truthy (some o) && !cfg.diff_mask) = false := by
      rw [hmask]
      exact Bool.and_false _
    simp only [sweepLoop]
    by_cases h1 : color_delta img1 img2 ((y * w + x) * 4) ((y * w + x) * 4) false > maxD
    · rw [if_pos h1]
      by_cases h2 : (!cfg.includeAA &&
          (antialiased img1 x y w h img2 || antialiased img2 x y w h img1)) = true
      · rw [if_pos h2, hmf, if_neg (show ¬((false : Bool) = true) by simp)]
        have hcprf : countedPx img1 img2 w h cfg.includeAA maxD (x, y) = false := by
          unfold countedPx
          simp only [h2, Bool.not_true, Bool.and_false]
        obtain ⟨o2, hsnd, hlen, ha, hb⟩ := ih d o hbrest
        refine ⟨o2, hsnd, hlen, ?_, ?_⟩
        · intro j hj
          obtain ⟨pr, hpr, hjj, hc, hv⟩ := ha j hj
          exact ⟨pr, List.mem_cons_of_mem _ hpr, hjj, hc, hv⟩
        · intro hff hpw pr hpr hcpr k hk
          rcases List.mem_cons.mp hpr with rfl | hpr2
          · rw [hcprf] at hcpr
            exact absurd hcpr (by simp)
          · exact hb hff (List.Pairwise.of_cons hpw) pr hpr2 hcpr k hk
      · rw [if_neg h2]
        have hcprt : countedPx img1 img2 w h cfg.includeAA maxD (x, y) = true := by
          unfold countedPx
          rw [Bool.not_eq_true] at h2
          simp only [h2, Bool.not_false, Bool.and_true, decide_eq_true_eq]
          exact h1
        have hposb : (y * w + x) * 4 + 3 < o.length := hbounds (x, y) (List.mem_cons_self _ _)
        have hone : o ≠ [] := by
          intro he
          rw [he] at hposb
          simp only [List.length_nil] at hposb
          omega
        have ht : truthy (some o) = true := by
          cases ho : o.isEmpty
          · rw [truthy, ho]
            rfl
          · rw [List.isEmpty_iff] at ho
            exact absurd ho hone
        rw [ht, if_pos rfl, Option.map_some']
        set o1 := draw_pixel o ((y * w + x) * 4) (cfg.diff_color.1 : ℚ)
          (cfg.diff_color.2.1 : ℚ) (cfg.diff_color.2.2 : ℚ) with ho1
        have hlen1 : o1.length = o.length := draw_pixel_length _ _ _ _ _
        have hquad : ∀ k, k < 4 → o1.getD ((y * w + x) * 4 + k) 0 = diffPaint cfg k :=
          draw_diff_getD cfg o ((y * w + x) * 4) hposb
        have hout : ∀ j, o1.getD j 0 ≠ o.getD j 0 →
            (y * w + x) * 4 ≤ j ∧ j ≤ (y * w + x) * 4 + 3 := by
          intro j hj
          by_contra hcon
          exact hj (draw_pixel_getD_outside o _ _ _ _ j (by omega))
        have hchanged : ∀ j, o1.getD j 0 ≠ o.getD j 0 →
            j / 4 = y * w + x ∧ o1.getD j 0 = diffPaint cfg (j % 4) := by
          intro j hj
          obtain ⟨hj1, hj2⟩ := hout j hj
          have hk4 : j - (y * w + x) * 4 < 4 := by omega
          have hjeq : j = (y * w + x) * 4 + (j - (y * w + x) * 4) := by omega
          have hdiv : j / 4 = y * w + x := by omega
          have hmod : j % 4 = j - (y * w + x) * 4 := by omega
          refine ⟨hdiv, ?_⟩
          rw [hmod]
          calc o1.getD j 0 = o1.getD ((y * w + x) * 4 + (j - (y * w + x) * 4)) 0 := by
                rw [← hjeq]
          _ = diffPaint cfg (j - (y * w + x) * 4) := hquad _ hk4
        by_cases hbf : cfg.fail_fast = true
        · rw [if_pos hbf]
          refine ⟨o1, rfl, hlen1, ?_, ?_⟩
          · intro j hj
            obtain ⟨hdiv, hval⟩ := hchanged j hj
            exact ⟨(x, y), List.mem_cons_self _ _, hdiv, hcprt, hval⟩
          · intro hff
            rw [hff] at hbf
            exact absurd hbf (by simp)
        · rw [if_neg hbf]
          have hbrest1 : ∀ pr ∈ rest, (pr.2 * w + pr.1) * 4 + 3 < o1.length := by
            rw [hlen1]
            exact hbrest
          obtain ⟨o2, hsnd, hlen2, ha, hb⟩ := ih (d + 1) o1 hbrest1
          refine ⟨o2, hsnd, by rw [hlen2, hlen1], ?_, ?_⟩
          · intro j hj
            by_cases hmid : o1.getD j 0 = o.getD j 0
            · have hj1 : o2.getD j 0 ≠ o1.getD j 0 := by rw [hmid]; exact hj
              obtain ⟨pr, hpr, hjj, hc, hv⟩ := ha j hj1
              exact ⟨pr, List.mem_cons_of_mem _ hpr, hjj, hc, hv⟩
            · obtain ⟨hdiv, hval⟩ := hchanged j hmid
              refine ⟨(x, y), List.mem_cons_self _ _, hdiv, hcprt, ?_⟩
              by_cases hj1 : o2.getD j 0 = o1.getD j 0
              · rw [hj1, hval]
              · obtain ⟨pr, hpr, hjj, hc, hv⟩ := ha j hj1
                exact hv
          · intro hff hpw pr hpr hcpr k hk
            rcases List.mem_cons.mp hpr with rfl | hpr2
            · have hkeep : o2.getD ((y * w + x) * 4 + k) 0 =
                  o1.getD ((y * w + x) * 4 + k) 0 := by
                by_contra hne
                obtain ⟨pr2, hpr2, hjj, hc, hv⟩ := ha _ hne
                have hd4 : ((y * w + x) * 4 + k) / 4 = y * w + x := by omega
                rw [hd4] at hjj
                have := (List.pairwise_cons.mp hpw).1 pr2 hpr2
                exact this hjj
              rw [hkeep]
              exact hquad k hk
            · exact hb hff (List.Pairwise.of_cons hpw) pr hpr2 hcpr k hk
    · rw [if_neg h1, hmf, if_neg (show ¬((false : Bool) = true) by simp)]
      have hcprf : countedPx img1 img2 w h cfg.includeAA maxD (x, y) = false := by
        unfold countedPx
        simp only [Bool.and_eq_false_iff]
        left
        simpa using h1
      obtain ⟨o2, hsnd, hlen, ha, hb⟩ := ih d o hbrest
      refine ⟨o2, hsnd, hlen, ?_, ?_⟩
      · intro j hj
        obtain ⟨pr, hpr, hjj, hc, hv⟩ := ha j hj
        exact ⟨pr, List.mem_cons_of_mem _ hpr, hjj, hc, hv⟩
      · intro hff hpw pr hpr hcpr k hk
        rcases List.mem_cons.mp hpr with rfl | hpr2
        · rw [hcprf] at hcpr
          exact absurd hcpr (by simp)
        · exact hb hff (List.Pairwise.of_cons hpw) pr hpr2 hcpr k hk

/-- Claim C8: with `diff_mask = true`, the only output positions `pixelmatch`
writes are the four bytes of pixels counted as real differences, painted with
the diff color and alpha 255; every other position (anti-aliased pixels and
matching pixels included) retains exactly its initial value, and with
`fail_fast = false` every counted pixel's quad is painted. -/
theorem claim_C8 (img1 img2 : List ℤ) (width height : Nat) (o : List ℤ) (cfg : Config)
    (hmask : cfg.diff_mask = true) (h12 : img1.length = img2.length)
    (hdim : img1.length = width * height * 4) (ho : o.length = img1.length) :
    ∃ o2, (pixelmatch img1 img2 width height (some o) cfg).2 = some o2 ∧
      o2.length = o.length ∧
      (∀ j, o2.getD j 0 ≠ o.getD j 0 →
        countedPx img1 img2 width height cfg.includeAA (maxDeltaOf cfg)
          (j / 4 % width, j / 4 / width) = true ∧
        o2.getD j 0 = diffPaint cfg (j % 4)) ∧
      (cfg.fail_fast = false → ∀ x y, x < width → y < height →
        countedPx img1 img2 width height cfg.includeAA (maxDeltaOf cfg) (x, y) = true →
        ∀ k, k < 4 → o2.getD ((y * width + x) * 4 + k) 0 = diffPaint cfg k) := by
  unfold pixelmatch
  rw [if_neg (fun hc => hc h12),
    if_neg (show ¬((truthy (some o) && decide (outLen (some o) ≠ img1.length)) = true) by
      intro hc
      simp only [Bool.and_eq_true, decide_eq_true_eq] at hc
      exact hc.2 ho),
    if_neg (fun hc => hc hdim)]
  by_cases he : img1 = img2
  · rw [if_pos he]
    have hmf : (truthy (some o) && !cfg.diff_mask) = false := by
      rw [hmask]
      exact Bool.and_false _
    rw [hmf]
    refine ⟨o, by rw [if_neg (show ¬((false : Bool) = true) by simp)], rfl, ?_, ?_⟩
    · intro j hne
      exact absurd rfl hne
    · intro hff x y hx hy hcpr
      rw [he] at hcpr
      rw [countedPx_self_false img2 width height cfg.includeAA cfg (x, y)] at hcpr
      exact absurd hcpr (by simp)
  · rw [if_neg he]
    have hbounds : ∀ pr ∈ pixelList width height,
        (pr.2 * width + pr.1) * 4 + 3 < o.length := by
      intro pr hpr
      obtain ⟨hx, hy⟩ := (mem_pixelList width height pr).mp hpr
      have hpos : pr.2 * width + pr.1 < height * width := by
        calc pr.2 * width + pr.1 < pr.2 * width + width := by omega
        _ = (pr.2 + 1) * width := by ring
        _ ≤ height * width := Nat.mul_le_mul_right width (by omega)
      have h4 : ((pr.2 * width + pr.1) + 1) * 4 ≤ (height * width) * 4 :=
        Nat.mul_le_mul_right 4 (by omega)
      have hcomm : height * width = width * height := Nat.mul_comm height width
      have holen : o.length = width * height * 4 := by rw [ho, hdim]
      omega
    obtain ⟨o2, hsnd, hlen, ha, hb⟩ := sweepLoop_mask img1 img2 width height cfg
      (maxDeltaOf cfg) hmask (pixelList width height) 0 o hbounds
    refine ⟨o2, hsnd, hlen, ?_, ?_⟩
    · intro j hne
      obtain ⟨pr, hpr, hjj, hc, hv⟩ := ha j hne
      have hx := ((mem_pixelList width height pr).mp hpr).1
      obtain ⟨hm, hd⟩ := pos_decompose width pr hx
      have hpair : (j / 4 % width, j / 4 / width) = pr := by
        rw [hjj, hm, hd]
      rw [hpair]
      exact ⟨hc, hv⟩
    · intro hff x y hx hy hcpr k hk
      exact hb hff (pixelList_pairwise width height) (x, y)
        ((mem_pixelList width height (x, y)).mpr ⟨hx, hy⟩) hcpr k hk

/-! ## Witnesses: the claim theorems applied at concrete inputs -/

/-- Witness for C1: mismatched buffer lengths produce the size error with the
actual lengths and leave the output untouched. -/
theorem claim_C1_witness :
    pixelmatch [0] [] 0 0 none defaultConfig = (.error (.sizeMismatch 1 0), none) :=
  (claim_C1 [0] [] 0 0 none defaultConfig).1 (by decide)

/-- Witness for C2: comparing a fully transparent 1x1 image with itself
returns 0 and paints the output pure white with alpha 255. -/
theorem claim_C2_witness :
    (pixelmatch [0, 0, 0, 0] [0, 0, 0, 0] 1 1 (some [9, 9, 9, 9]) defaultConfig).1 = .ok 0 ∧
    (((pixelmatch [0, 0, 0, 0] [0, 0, 0, 0] 1 1 (some [9, 9, 9, 9]) defaultConfig).2.getD
      []).getD 0 0 = 255 ∧
    ((pixelmatch [0, 0, 0, 0] [0, 0, 0, 0] 1 1 (some [9, 9, 9, 9]) defaultConfig).2.getD
      []).getD 1 0 = 255 ∧
    ((pixelmatch [0, 0, 0, 0] [0, 0, 0, 0] 1 1 (some [9, 9, 9, 9]) defaultConfig).2.getD
      []).getD 2 0 = 255 ∧
    ((pixelmatch [0, 0, 0, 0] [0, 0, 0, 0] 1 1 (some [9, 9, 9, 9]) defaultConfig).2.getD
      []).getD 3 0 = 255) := by
  obtain ⟨h1, h2, o2, hsnd, hlen, hq⟩ :=
    claim_C2 [0, 0, 0, 0] 1 1 [9, 9, 9, 9] defaultConfig (by decide) (by decide) rfl
  obtain ⟨q0, q1, q2, q3⟩ := hq 0 (by decide)
  norm_num at q0 q1 q2 q3
  have hgv : grayVal [0, 0, 0, 0] 0 defaultConfig.alpha = ((255 : ℤ) : ℚ) := by
    norm_num [grayVal, rgb2y, blend, px, pxz]
  rw [hgv, pyInt_intCast] at q0 q1 q2
  refine ⟨h2, ?_, ?_, ?_, ?_⟩ <;> rw [hsnd]
  · simpa using q0
  · simpa using q1
  · simpa using q2
  · simpa using q3

/-- Witness for C3: the diff count of 1x1 black vs white equals that of white
vs black. -/
theorem claim_C3_witness :
    (pixelmatch wBlack wWhite 1 1 none defaultConfig).1 =
    (pixelmatch wWhite wBlack 1 1 none defaultConfig).1 :=
  claim_C3 wBlack wWhite 1 1 none defaultConfig (by decide) (by decide)

/-- Witness for C4: on 1x1 black vs white the count at threshold 1 is at most
the count at threshold 0. -/
theorem claim_C4_witness :
    ((pixelmatch wBlack wWhite 1 1 none { defaultConfig with threshold := 0 }).1).isOk
      = true ∧
    ((pixelmatch wBlack wWhite 1 1 none { defaultConfig with threshold := 1 }).1).isOk
      = true ∧
    okValue ((pixelmatch wBlack wWhite 1 1 none { defaultConfig with threshold := 1 }).1) ≤
      okValue ((pixelmatch wBlack wWhite 1 1 none { defaultConfig with threshold := 0 }).1) :=
  claim_C4 wBlack wWhite 1 1 none defaultConfig 0 1 (by decide) (by decide) (by decide) rfl
    (by norm_num) (by norm_num)

/-- Witness for C5: the 1x1 black-vs-white full scan counts 1, so the
fail-fast call returns exactly 1. -/
theorem claim_C5_witness :
    (pixelmatch wBlack wWhite 1 1 none { defaultConfig with fail_fast := true }).1 = .ok 1 := by
  have hn : (pixelmatch wBlack wWhite 1 1 none defaultConfig).1 = .ok 1 := by
    rw [pixelmatch_fst_count wBlack wWhite 1 1 none defaultConfig (by decide) (by decide)
      (by decide) rfl]
    rw [if_neg (by decide)]
    have hpl : pixelList 1 1 = [(0, 0)] := by decide
    rw [hpl, List.countP_cons, List.countP_nil]
    have hc : countedPx wBlack wWhite 1 1 defaultConfig.includeAA (maxDeltaOf defaultConfig)
        (0, 0) = true := by
      norm_num [countedPx, color_delta, blendedRGB, px, pxz, wBlack, wWhite, rgb2y, rgb2i,
        rgb2q, blend, maxDeltaOf, defaultConfig, antialiased, clampedNeighbors, aaLoop,
        initAA, borderSeed]
    rw [hc]
    norm_num
  have h := claim_C5 wBlack wWhite 1 1 none defaultConfig 1 (by decide) (by decide) (by decide)
    rfl hn
  simpa using h

/-- Witness for C6: the center pixel of the concrete 3x3 gradient image is
classified as anti-aliased through the recorded darkest neighbor. -/
theorem claim_C6_witness : antialiased wAA 1 1 3 3 wAA = true := by
  have hstate : aaScanState wAA 1 1 3 3 =
      ⟨1, -(100000001 / 1000000), 100000001 / 2000000, 0, 0, 2, 0⟩ := by
    norm_num [aaScanState, aaFold, aaStep, initAA, borderSeed, clampedNeighbors,
      color_delta, blendedRGB, px, pxz, wAA, gq, rgb2y, blend, List.range']
  have hz : (aaScanState wAA 1 1 3 3).zeroes ≤ 2 := by
    rw [hstate]
    decide
  have hexneg : ∃ pr ∈ clampedNeighbors 1 1 3 3, neighborDelta wAA 1 1 3 pr < 0 :=
    ⟨(0, 0), by decide, by
      norm_num [neighborDelta, color_delta, blendedRGB, px, pxz, wAA, gq, rgb2y, blend]⟩
  have hexpos : ∃ pr ∈ clampedNeighbors 1 1 3 3, 0 < neighborDelta wAA 1 1 3 pr :=
    ⟨(2, 0), by decide, by
      norm_num [neighborDelta, color_delta, blendedRGB, px, pxz, wAA, gq, rgb2y, blend]⟩
  have h := (claim_C6 wAA wAA 1 1 3 3).2.2.2 hz hexneg hexpos
  rw [h, hstate]
  decide

/-- Witness for C8: in mask mode on 1x1 black vs white, the single real-diff
quad of the output is painted with the diff color and alpha 255. -/
theorem claim_C8_witness :
    ((pixelmatch wBlack wWhite 1 1 (some [7, 7, 7, 7]) cfgMask).2.getD []).getD 0 0 = 255 ∧
    ((pixelmatch wBlack wWhite 1 1 (some [7, 7, 7, 7]) cfgMask).2.getD []).getD 1 0 = 0 ∧
    ((pixelmatch wBlack wWhite 1 1 (some [7, 7, 7, 7]) cfgMask).2.getD []).getD 2 0 = 0 ∧
    ((pixelmatch wBlack wWhite 1 1 (some [7, 7, 7, 7]) cfgMask).2.getD []).getD 3 0 = 255 := by
  obtain ⟨o2, hsnd, hlen, ha, hb⟩ :=
    claim_C8 wBlack wWhite 1 1 [7, 7, 7, 7] cfgMask rfl (by decide) (by decide) (by decide)
  have hcpr : countedPx wBlack wWhite 1 1 cfgMask.includeAA (maxDeltaOf cfgMask)
      (0, 0) = true := by
    norm_num [countedPx, color_delta, blendedRGB, px, pxz, wBlack, wWhite, rgb2y, rgb2i,
      rgb2q, blend, maxDeltaOf, cfgMask, defaultConfig, antialiased, clampedNeighbors,
      aaLoop, initAA, borderSeed]
  have hpaint := hb rfl 0 0 (by decide) (by decide) hcpr
  have hp0 := hpaint 0 (by decide)
  have hp1 := hpaint 1 (by decide)
  have hp2 := hpaint 2 (by decide)
  have hp3 := hpaint 3 (by decide)
  norm_num at hp0 hp1 hp2 hp3
  refine ⟨?_, ?_, ?_, ?_⟩ <;> rw [hsnd]
  · simpa [diffPaint, cfgMask, defaultConfig] using hp0
  · simpa [diffPaint, cfgMask, defaultConfig] using hp1
  · simpa [diffPaint, cfgMask, defaultConfig] using hp2
  · simpa [diffPaint, cfgMask, defaultConfig] using hp3

/-- Witness for C9: the single window byte range of a 1x1 image lies inside
the 4-byte buffer. -/
theorem claim_C9_witness :
    (windowIndices 0 0 1 1).all (fun i => decide (i < 1 * 1 * 4)) = true := by
  rw [List.all_eq_true]
  intro i hi
  exact decide_eq_true (claim_C9 1 1 0 0 (by decide) (by decide) (by decide) (by decide) i hi)

end Pixelmatch
